import Mathlib

/-!
Verification development for the LicitApp synchronization engine
(`scripts/placsp_sync.py`) and the notification filter
(`scripts/enviar_alertas.py`).

The Python code is shallowly embedded: pure functions become Lean
functions over `List Char` / `String` / `ℚ`; the network layer
(`requests.head`, `requests.get`) is an explicit oracle argument; the
zip/XML layer is abstracted to a list of named, already-parsed feed
documents (an unparsable document is `none`, mirroring a raised
`ET.ParseError`).  Amounts are modelled as exact rationals: the program
only manipulates decimal literals produced by its own regex extraction,
so the rational value is the faithful mathematical content of the parse.
-/

/-- ASCII whitespace recognized by Python's `\s` class and `str.strip`
(the embedding restricts to the ASCII fragment actually produced by the
feed labels). -/
def pySpace (c : Char) : Bool :=
  c = ' ' || c = '\t' || c = '\n' || c = '\r' || c = '\x0c' || c = '\x0b'

/-- Lower-casing as used by `str.lower()` / `re.I`: ASCII plus the
accented Spanish capitals occurring in the program's pattern literals. -/
def pyLower (c : Char) : Char :=
  if c = 'Á' then 'á' else if c = 'É' then 'é' else if c = 'Í' then 'í'
  else if c = 'Ó' then 'ó' else if c = 'Ú' then 'ú' else if c = 'Ñ' then 'ñ'
  else if c = 'Ü' then 'ü' else c.toLower

/-- `str.lower()` on whole strings. -/
def strLower (s : String) : String :=
  String.mk (s.toList.map pyLower)

/-- `str.strip()`: drop leading and trailing whitespace. -/
def pyStrip (l : List Char) : List Char :=
  ((l.dropWhile pySpace).reverse.dropWhile pySpace).reverse

/-- `str.strip()` on `String`. -/
def pyStripS (s : String) : String :=
  String.mk (pyStrip s.toList)

/-- Helper for Python's `needle in hay` substring test. -/
def strContainsL (needle : List Char) : List Char → Bool
  | [] => needle.isEmpty
  | c :: t => needle.isPrefixOf (c :: t) || strContainsL needle t

/-- Python's `needle in hay` substring test on strings. -/
def strContains (hay needle : String) : Bool :=
  strContainsL needle.toList hay.toList

/-- Python's `str.endswith`. -/
def strEndsWith (s suf : String) : Bool :=
  suf.toList.isSuffixOf s.toList

/-- Value of a digit string, as computed by Python `int` on a `\d+` match. -/
def digitsToNat (l : List Char) : Nat :=
  l.foldl (fun n c => 10 * n + (c.toNat - '0'.toNat)) 0

/-- Accumulator worker for `digitGroups`. -/
def digitGroupsAux : List Char → List Char → List (List Char)
  | [], acc => if acc.isEmpty then [] else [acc.reverse]
  | c :: t, acc =>
    if c.isDigit then digitGroupsAux t (c :: acc)
    else if acc.isEmpty then digitGroupsAux t []
    else acc.reverse :: digitGroupsAux t []

/-- `re.findall(r"\d+", s)`: the maximal runs of digits of `s`, in order. -/
def digitGroups (l : List Char) : List (List Char) :=
  digitGroupsAux l []

/-- Exponent suffix `[+-]?\d+` of a float literal, folded into the
`(mantissa, k)` pair denoting `mantissa / 10 ^ k`. -/
def parseExpSuffix (mant k : Nat) (t : List Char) : Option (Nat × Nat) :=
  let neg :=
    match t with
    | '-' :: _ => true
    | _ => false
  let t1 :=
    match t with
    | '+' :: u => u
    | '-' :: u => u
    | u => u
  let eds := t1.takeWhile Char.isDigit
  let t2 := t1.dropWhile Char.isDigit
  if eds.isEmpty || !t2.isEmpty then none
  else
    let e := digitsToNat eds
    if neg then some (mant, k + e) else some (mant * 10 ^ e, k)

/-- Unsigned part of Python's float-literal parse, on the numeric fragment
(digits, optional decimal point, optional exponent; `inf`/`nan`,
underscores and surrounding whitespace are outside the fragment the
program can produce, since its inputs come from a `[0-9\.,]+` match).
Returns `(mantissa, k)` meaning the value `mantissa / 10 ^ k`. -/
def parseUnsigned (s : List Char) : Option (Nat × Nat) :=
  let ds := s.takeWhile Char.isDigit
  let s2 := s.dropWhile Char.isDigit
  let fs :=
    match s2 with
    | '.' :: t => t.takeWhile Char.isDigit
    | _ => []
  let s3 :=
    match s2 with
    | '.' :: t => t.dropWhile Char.isDigit
    | u => u
  if ds.isEmpty && fs.isEmpty then none
  else
    let mant := digitsToNat (ds ++ fs)
    let k := fs.length
    match s3 with
    | [] => some (mant, k)
    | 'e' :: t => parseExpSuffix mant k t
    | 'E' :: t => parseExpSuffix mant k t
    | _ => none

/-- Python `float(s)` on the numeric-literal fragment, as an exact pair
`(numerator, k)` denoting `numerator / 10 ^ k`; `none` when `float`
would raise `ValueError`. -/
def parseRep (s : List Char) : Option (Int × Nat) :=
  match s with
  | '+' :: t => (parseUnsigned t).map (fun p => ((p.1 : Int), p.2))
  | '-' :: t => (parseUnsigned t).map (fun p => (-(p.1 : Int), p.2))
  | t => (parseUnsigned t).map (fun p => ((p.1 : Int), p.2))

/-- Rational value of a `parseRep` result. -/
def repVal (p : Int × Nat) : ℚ :=
  (p.1 : ℚ) / 10 ^ p.2

/-- `to_float` from `parse_entry` (placsp_sync.py:142-149): empty text is
absent; otherwise strip all periods, turn commas into periods, and parse
as a float, `None` on `ValueError`. -/
def to_float (x : String) : Option ℚ :=
  if x = "" then none
  else
    (parseRep ((x.toList.filter (fun c => c ≠ '.')).map
      (fun c => if c = ',' then '.' else c))).map repVal

/-- A calendar day triple in the order `datetime.date(y, m, d)` uses. -/
structure Date where
  y : Nat
  m : Nat
  d : Nat
deriving DecidableEq

/-- Gregorian leap-year rule used by `datetime.date`. -/
def isLeap (y : Nat) : Bool :=
  y % 4 = 0 && (y % 100 ≠ 0 || y % 400 = 0)

/-- Days in a month per `datetime.date`. -/
def daysInMonth (y m : Nat) : Nat :=
  if m = 2 then (if isLeap y then 29 else 28)
  else if m = 4 ∨ m = 6 ∨ m = 9 ∨ m = 11 then 30
  else 31

/-- Whether `datetime.date(y, m, d)` succeeds (otherwise it raises, which
`is_active` swallows). -/
def validDate (y m d : Nat) : Bool :=
  1 ≤ y && y ≤ 9999 && 1 ≤ m && m ≤ 12 && 1 ≤ d && d ≤ daysInMonth y m

/-- `datetime.date` comparison: lexicographic on (year, month, day). -/
def dateLt (a b : Date) : Bool :=
  a.y < b.y || (a.y = b.y && (a.m < b.m || (a.m = b.m && a.d < b.d)))

/-- One element of a regex pattern as used by `parse_entry`'s label
patterns: a case-insensitive literal character, or a greedy
zero-or-more / one-or-more repetition of a character class. -/
inductive Piece where
  | lit (c : Char)
  | star (p : Char → Bool)
  | plus (p : Char → Bool)

/-- Remainders of `s` after consuming a (possibly empty) run of
characters satisfying `p`, in greedy backtracking order (longest
consumed first), as a backtracking regex engine explores them. -/
def greedyDrops (p : Char → Bool) : List Char → List (List Char)
  | [] => [[]]
  | c :: t => if p c then greedyDrops p t ++ [c :: t] else [c :: t]

/-- Remainders of `s` after the pieces match a prefix of `s`, in the
backtracking priority order of Python's `re` engine. -/
def matchPieces : List Piece → List Char → List (List Char)
  | [], s => [s]
  | .lit _ :: _, [] => []
  | .lit c :: ps, d :: t =>
    if pyLower d = pyLower c then matchPieces ps t else []
  | .star p :: ps, s => (greedyDrops p s).flatMap (matchPieces ps)
  | .plus _ :: _, [] => []
  | .plus p :: ps, d :: t =>
    if p d then (greedyDrops p t).flatMap (matchPieces ps) else []

/-- Try, at one start position, each alternative of the pattern prefix in
priority order, then the final capture group `(gp+)` (greedy, with
nothing after it); returns the captured characters of the
highest-priority full match. -/
def tryGroup (alts : List (List Piece)) (gp : Char → Bool) (s : List Char) :
    Option (List Char) :=
  (alts.flatMap (fun a => matchPieces a s)).findSome? (fun r =>
    let g := r.takeWhile gp
    if g.isEmpty then none else some g)

/-- `re.search` for a pattern of shape `PRE(gp+)`: scan start positions
left to right and return the group of the first position admitting a
full match. -/
def reSearch (alts : List (List Piece)) (gp : Char → Bool) :
    List Char → Option (List Char)
  | [] => tryGroup alts gp []
  | c :: t =>
    match tryGroup alts gp (c :: t) with
    | some g => some g
    | none => reSearch alts gp t

/-- The `rex` helper of `parse_entry` (placsp_sync.py:127-129):
`m.group(1).strip()` on a successful search, `""` otherwise. -/
def rexStr (alts : List (List Piece)) (gp : Char → Bool) (summary : String) :
    String :=
  match reSearch alts gp summary.toList with
  | some g => String.mk (pyStrip g)
  | none => ""

/-- A literal string (matched case-insensitively under `re.I`) as a run
of pattern pieces. -/
def litStr (s : String) : List Piece :=
  s.toList.map Piece.lit

/-- Character class `[^\n<]` of the generic label patterns. -/
def clsNotNlLt (c : Char) : Bool :=
  !(c = '\n' || c = '<')

/-- Character class `[0-9\.,]` of the amount pattern. -/
def clsAmount (c : Char) : Bool :=
  c.isDigit || c = '.' || c = ','

/-- Character class `[0-9\- ]` of the CPV pattern. -/
def clsCpv (c : Char) : Bool :=
  c.isDigit || c = '-' || c = ' '

/-- Character class `[0-9/\-]` of the publication-date pattern. -/
def clsFpub (c : Char) : Bool :=
  c.isDigit || c = '/' || c = '-'

/-- Character class `[0-9/\-: ]` of the deadline pattern. -/
def clsFfin (c : Char) : Bool :=
  c.isDigit || c = '/' || c = '-' || c = ':' || c = ' '

/-- Pattern prefix of `Identificador:\s*([^\n<]+)`. -/
def identAlts : List (List Piece) :=
  [litStr "Identificador:" ++ [Piece.star pySpace]]

/-- Pattern prefix of `Órgano de Contratación:\s*([^\n<]+)`. -/
def organoAlts : List (List Piece) :=
  [litStr "Órgano de Contratación:" ++ [Piece.star pySpace]]

/-- Pattern prefix of `Estado:\s*([^\n<]+)`. -/
def estadoAlts : List (List Piece) :=
  [litStr "Estado:" ++ [Piece.star pySpace]]

/-- Pattern prefix of `Importe(?:\s+de\s+Licitación)?:\s*([0-9\.,]+)`:
the alternative with the optional group present has priority. -/
def importeAlts : List (List Piece) :=
  [litStr "Importe" ++ [Piece.plus pySpace] ++ litStr "de" ++
    [Piece.plus pySpace] ++ litStr "Licitación:" ++ [Piece.star pySpace],
   litStr "Importe:" ++ [Piece.star pySpace]]

/-- Pattern prefix of `CPV:\s*([0-9\- ]+)`. -/
def cpvAlts : List (List Piece) :=
  [litStr "CPV:" ++ [Piece.star pySpace]]

/-- Pattern prefix of `Tipo de Contrato:\s*([^\n<]+)`. -/
def tipoAlts : List (List Piece) :=
  [litStr "Tipo de Contrato:" ++ [Piece.star pySpace]]

/-- Pattern prefix of `CCAA:\s*([^\n<]+)`. -/
def ccaaAlts : List (List Piece) :=
  [litStr "CCAA:" ++ [Piece.star pySpace]]

/-- Pattern prefix of `Provincia:\s*([^\n<]+)`. -/
def provinciaAlts : List (List Piece) :=
  [litStr "Provincia:" ++ [Piece.star pySpace]]

/-- Pattern prefix of `Fecha de Publicación:\s*([0-9/\-]+)`. -/
def fpubAlts : List (List Piece) :=
  [litStr "Fecha de Publicación:" ++ [Piece.star pySpace]]

/-- Pattern prefix of `Fecha Límite de Presentación:\s*([0-9/\-: ]+)`. -/
def ffinAlts : List (List Piece) :=
  [litStr "Fecha Límite de Presentación:" ++ [Piece.star pySpace]]

/-- An Atom feed entry as `parse_entry` observes it through ElementTree:
the text of its `a:title` child (`none` when absent), its `a:link`
child's `href` attribute (`none` = no link element; `some none` =
element without the attribute, which ElementTree's `get` reports as
Python `None`), and the text of its `a:summary` child. -/
structure Entry where
  title : Option String
  link : Option (Option String)
  summary : Option String
deriving DecidableEq

/-- `extract_text` (placsp_sync.py:114-117): `""` when the element is
missing, else its (possibly `None`) text, stripped. -/
def extract_text (t : Option String) : String :=
  match t with
  | none => ""
  | some s => pyStripS s

/-- A parsed tender record (the dict built by `parse_entry`); `fuente` is
the constant `"PLACSP"` and is omitted.  `enlace` keeps Python's
string-or-`None` distinction. -/
structure Lic where
  id : String
  titulo : String
  organo : String
  estado : String
  importe : Option ℚ
  cpv : String
  tipo : String
  ccaa : String
  provincia : String
  fechaPublicacion : String
  fechaLimite : String
  enlace : Option String
deriving DecidableEq

/-- The string value of the entry's link, used by the identifier fallback
chain (Python `None` and the empty string are both falsy). -/
def linkText (e : Entry) : String :=
  match e.link with
  | some (some h) => h
  | _ => ""

/-- `parse_entry` (placsp_sync.py:120-165): title, link and the
label-driven fields extracted from the summary; the identifier falls
back through `rex(...) or enlace or titulo`. -/
def parse_entry (e : Entry) : Lic :=
  let titulo := extract_text e.title
  let enlace : Option String :=
    match e.link with
    | some h => h
    | none => some ""
  let summary := extract_text e.summary
  let identRaw := rexStr identAlts clsNotNlLt summary
  let ident :=
    if identRaw ≠ "" then identRaw
    else
      match enlace with
      | some s => if s ≠ "" then s else titulo
      | none => titulo
  { id := ident
    titulo := titulo
    organo := rexStr organoAlts clsNotNlLt summary
    estado := rexStr estadoAlts clsNotNlLt summary
    importe := to_float (rexStr importeAlts clsAmount summary)
    cpv := rexStr cpvAlts clsCpv summary
    tipo := rexStr tipoAlts clsNotNlLt summary
    ccaa := rexStr ccaaAlts clsNotNlLt summary
    provincia := rexStr provinciaAlts clsNotNlLt summary
    fechaPublicacion := rexStr fpubAlts clsFpub summary
    fechaLimite := rexStr ffinAlts clsFfin summary
    enlace := enlace }

/-- The identifier fallback chain, in resolution order: explicit
identifier label value, entry link, entry title. -/
def idChain (e : Entry) : List String :=
  [rexStr identAlts clsNotNlLt (extract_text e.summary),
   linkText e,
   extract_text e.title]

/-- `is_active` (placsp_sync.py:168-186): inactive on an annulled or
suspended status; otherwise inactive when the first three integer groups
of the deadline text form a valid calendar date strictly before `today`;
active in every other case (the `except` clause swallows an invalid
date). -/
def is_active (lic : Lic) (today : Date) : Bool :=
  let estado := strLower lic.estado
  if strContains estado "anulada" || strContains estado "suspend" then false
  else
    let ffin := lic.fechaLimite
    if ffin ≠ "" then
      match (digitGroups ffin.toList).map digitsToNat with
      | d :: m :: y :: _ =>
        if validDate y m d && dateLt ⟨y, m, d⟩ today then false else true
      | _ => true
    else true

/-- Spec-side predicate (from the claim's words): the lower-cased status
text contains an annulled or suspended token. -/
def excludedStatusSpec (lic : Lic) : Bool :=
  strContains (strLower lic.estado) "anulada" ||
    strContains (strLower lic.estado) "suspend"

/-- Spec-side predicate (from the claim's words): the first three integer
groups of the raw deadline text, read as day, month, year, form a valid
calendar date strictly before `today`. -/
def deadlinePassedSpec (ffin : String) (today : Date) : Bool :=
  match (digitGroups ffin.toList).map digitsToNat with
  | d :: m :: y :: _ => validDate y m d && dateLt ⟨y, m, d⟩ today
  | _ => false

/-- The Merge Store: the `licitaciones` dict of `main`, as an
insertion-ordered association list (CPython dict semantics). -/
abbrev Store := List (String × Lic)

/-- Dict lookup. -/
def lookupStore (st : Store) (k : String) : Option Lic :=
  (st.find? (fun p => p.1 == k)).map Prod.snd

/-- Dict key view, in insertion order. -/
def storeKeys (st : Store) : List String :=
  st.map Prod.fst

/-- `dict.values()`, in insertion order. -/
def storeValues (st : Store) : List Lic :=
  st.map Prod.snd

/-- `licitaciones[lic["id"]] = lic`: replace in place when the key is
present, append otherwise. -/
def upsert (st : Store) (k : String) (v : Lic) : Store :=
  if st.any (fun p => p.1 == k) then
    st.map (fun p => if p.1 == k then (k, v) else p)
  else st ++ [(k, v)]

/-- The per-record step of `main`'s loop (placsp_sync.py:209-213): a
record with an empty id is skipped, any other is upserted. -/
def processRecord (st : Store) (lic : Lic) : Store :=
  if lic.id = "" then st else upsert st lic.id lic

/-- Processing a sequence of already-parsed records in order, starting
from the empty store. -/
def processAll (recs : List Lic) : Store :=
  recs.foldl processRecord []

/-- The per-entry step of `main`'s loop: parse, then process. -/
def processEntry (st : Store) (e : Entry) : Store :=
  processRecord st (parse_entry e)

/-- A parsed Atom feed document: its direct entries and the `href` of a
`rel='next'` link when one is present (absence of the attribute behaves
like absence of the link and is folded into `none`). -/
structure Feed where
  entries : List Entry
  next : Option String
deriving DecidableEq

/-- A zip archive as `iter_atom_entries_from_zip` observes it: named
member files in `namelist()` order, each paired with its parse result
(`none` models a document on which `ET.fromstring` raises). -/
structure Zip where
  files : List (String × Option Feed)
deriving DecidableEq

/-- The first member whose name ends in `.atom` or `.xml`
(placsp_sync.py:86-90). -/
def findAtom (z : Zip) : Option (String × Option Feed) :=
  z.files.find? (fun f => strEndsWith f.1 ".atom" || strEndsWith f.1 ".xml")

/-- `z.open(name)`: `none` models the `KeyError` for a missing member;
`some c` is the member's parse result. -/
def zOpen (z : Zip) (name : String) : Option (Option Feed) :=
  (z.files.find? (fun f => f.1 = name)).map Prod.snd

/-- `iter_atom_entries_from_zip` (placsp_sync.py:82-111) as the pair of
the entries it yields and whether it raises after yielding them.  A
missing main document yields nothing; an unparsable main document raises
at once; the first document's entries are always yielded before the
next-page link is followed; a missing linked member raises `KeyError`,
which the `except KeyError` clause swallows; an unparsable linked member
raises `ET.ParseError`, which that clause does not catch. -/
def iter_atom_entries_from_zip (z : Zip) : List Entry × Bool :=
  match findAtom z with
  | none => ([], false)
  | some (_, none) => ([], true)
  | some (_, some feed) =>
    match feed.next with
    | none => (feed.entries, false)
    | some href =>
      if href = "" then (feed.entries, false)
      else
        match zOpen z href with
        | none => (feed.entries, false)
        | some none => (feed.entries, true)
        | some (some nf) => (feed.entries ++ nf.entries, false)

/-- Base URL of the syndication endpoint (placsp_sync.py:42). -/
def BASE_URL : String :=
  "https://contrataciondelestado.es/sindicacion/sindicacion_643/"

/-- The historical zip filename patterns, in probe priority order
(placsp_sync.py:46-51). -/
def ZIP_PATTERNS : List String :=
  ["licitacionesPerfilesContratanteCompleto3_{ym}.zip",
   "licitacionesPerfilesContratanteCompleta3_{ym}.zip",
   "licitacionesPerfilesContratanteCompleto_{ym}.zip",
   "licitacionesPerfilesContratanteCompleta_{ym}.zip"]

/-- `pattern.format(ym=ym)`: substitute the `{ym}` placeholder. -/
def formatYm : List Char → List Char → List Char
  | [], _ => []
  | '{' :: 'y' :: 'm' :: '}' :: rest, ym => ym ++ formatYm rest ym
  | c :: rest, ym => c :: formatYm rest ym

/-- `urljoin(BASE_URL, pattern.format(ym=ym))`: the base ends in a slash
and the name is relative, so the join is concatenation. -/
def zipUrl (pattern ym : String) : String :=
  BASE_URL ++ String.mk (formatYm pattern.toList ym.toList)

/-- Probe loop of `find_existing_zip`: a probe result is the final HTTP
status of `requests.head` (`none` models a raised transport exception,
which the `except` clause turns into trying the next pattern). -/
def findZipAux (probe : String → Option Nat) (ym : String) :
    List String → Option String
  | [] => none
  | pat :: rest =>
    match probe (zipUrl pat ym) with
    | some 200 => some (zipUrl pat ym)
    | _ => findZipAux probe ym rest

/-- `find_existing_zip` (placsp_sync.py:69-79): first pattern whose
existence probe returns status 200 wins; `None` when all fail. -/
def find_existing_zip (probe : String → Option Nat) (ym : String) :
    Option String :=
  findZipAux probe ym ZIP_PATTERNS

/-- One period of `main`'s download loop (placsp_sync.py:200-216): no
located zip or a failed fetch contributes nothing; otherwise every entry
the extractor yields before a possible raise is parsed and merged (the
`except` around the loop fires only after those iterations ran). -/
def processZipPeriod (probe : String → Option Nat)
    (fetch : String → Option Zip) (st : Store) (ym : String) : Store :=
  match find_existing_zip probe ym with
  | none => st
  | some url =>
    match fetch url with
    | none => st
    | some z => (iter_atom_entries_from_zip z).1.foldl processEntry st

/-- The Merge Store built by a full run: starts empty, folds every
period in order. -/
def buildStore (months : List String) (probe : String → Option Nat)
    (fetch : String → Option Zip) : Store :=
  months.foldl (processZipPeriod probe fetch) []

/-- A full run of the sync pipeline at the record level: the full-history
list (`list(licitaciones.values())`) and, when the active-only toggle is
set, the active subset (placsp_sync.py:189-234).  Serialization of these
lists is a pure function of them, so artifact bytes are determined by
this pair. -/
def runSync (months : List String) (probe : String → Option Nat)
    (fetch : String → Option Zip) (today : Date) (activeOnly : Bool) :
    List Lic × Option (List Lic) :=
  let allLics := storeValues (buildStore months probe fetch)
  (allLics,
   if activeOnly then some (allLics.filter (fun l => is_active l today))
   else none)

/-- The two output artifacts of `main`. -/
inductive Artifact where
  | ndjson
  | active
deriving DecidableEq

/-- The output phase of `main` (placsp_sync.py:222-234), with the success
of each `open`/write modelled by a boolean oracle: returns the artifacts
whose write was attempted, in order, and whether an exception propagated
to the caller.  The NDJSON write is unguarded, so its failure aborts
`main` before the active-subset write. -/
def outputPhase (ndOk acOk activeOnly : Bool) : List Artifact × Bool :=
  if ndOk then
    if activeOnly then
      if acOk then ([Artifact.ndjson, Artifact.active], false)
      else ([Artifact.ndjson, Artifact.active], true)
    else ([Artifact.ndjson], false)
  else ([Artifact.ndjson], true)

/-- A subscriber record from `subscribers.json` as `filter_tenders`
reads it. -/
structure Subscriber where
  keywords : List String
  provincias : List String
  tipos : List String
  importeMin : Option ℚ
deriving DecidableEq

/-- The per-tender predicate of `filter_tenders`
(enviar_alertas.py:43-77): amount, province, type and keyword filters
must all pass; `lic.get("importe") or 0` treats an absent amount as
zero. -/
def matchesSub (sub : Subscriber) (lic : Lic) : Bool :=
  let keywords := (sub.keywords.filter (fun k => pyStripS k ≠ "")).map
    (fun k => strLower (pyStripS k))
  let provs := (sub.provincias.filter (fun p => pyStripS p ≠ "")).map
    (fun p => strLower (pyStripS p))
  let tipos := (sub.tipos.filter (fun t => pyStripS t ≠ "")).map
    (fun t => strLower (pyStripS t))
  let minImporte : ℚ := sub.importeMin.getD 0
  let impOk :=
    if minImporte ≠ 0 then
      if lic.importe.getD 0 < minImporte then false else true
    else true
  let provOk :=
    if !provs.isEmpty then
      let loc := strLower
        (if lic.provincia ≠ "" then lic.provincia else lic.ccaa)
      provs.any (fun p => strContains loc p)
    else true
  let tipoOk :=
    if !tipos.isEmpty then
      tipos.any (fun t => strContains (strLower lic.tipo) t)
    else true
  let kwOk :=
    if !keywords.isEmpty then
      let contenido := strLower
        (lic.titulo ++ " " ++ lic.organo ++ " " ++ lic.cpv)
      keywords.any (fun k => strContains contenido k)
    else true
  impOk && provOk && tipoOk && kwOk

/-- `filter_tenders` (enviar_alertas.py:43-77): the tenders passing all
of the subscriber's filters, in order. -/
def filter_tenders (sub : Subscriber) (tenders : List Lic) : List Lic :=
  tenders.filter (fun lic => matchesSub sub lic)

/-- A minimal tender record with the given id and title, all other
fields empty/absent (as `parse_entry` yields for a bare entry). -/
def mkLic (i t : String) : Lic :=
  { id := i, titulo := t, organo := "", estado := "", importe := none,
    cpv := "", tipo := "", ccaa := "", provincia := "",
    fechaPublicacion := "", fechaLimite := "", enlace := some "" }

/-- Concrete feed entry: no identifier label, a link, an amount label. -/
def entryW : Entry :=
  { title := some "Obra menor",
    link := some (some "https://example.org/lic/1"),
    summary := some "Importe: 5" }

/-- Concrete feed entry with identifier label, link and title all
empty. -/
def entryEmpty : Entry :=
  { title := none, link := none, summary := none }

/-- Concrete archive: one feed document, no pagination. -/
def zipW : Zip :=
  { files := [("licitaciones.atom", some { entries := [entryW], next := none })] }

/-- Concrete archive whose next-page link names a member that exists but
is unparsable. -/
def zipBadPage : Zip :=
  { files := [("licitaciones.atom",
               some { entries := [entryW], next := some "page2.xml" }),
              ("page2.xml", none)] }

/-- Concrete archive whose next-page link names a member missing from
the container. -/
def zipNoPage : Zip :=
  { files := [("licitaciones.atom",
               some { entries := [entryW], next := some "page2.xml" })] }

/-- Probe oracle answering success for every URL. -/
def probeW : String → Option Nat := fun _ => some 200

/-- Fetch oracle returning the one-document archive for every URL. -/
def fetchW : String → Option Zip := fun _ => some zipW

/-- A concrete current date. -/
def todayW : Date := { y := 2020, m := 1, d := 1 }

/-- Two records sharing the identifier `"X"` with different titles. -/
def licA : Lic := mkLic "X" "primera"

/-- The later sighting under identifier `"X"`. -/
def licB : Lic := mkLic "X" "segunda"

/-- A subscriber with a positive minimum amount and no other filters. -/
def subW : Subscriber :=
  { keywords := [], provincias := [], tipos := [], importeMin := some 5 }

/-- A tender with an absent amount. -/
def licNoImp : Lic := mkLic "Y" "sin importe"

theorem lookup_upsert_self (st : Store) (k : String) (v : Lic) :
    lookupStore (upsert st k v) k = some v := by
  unfold upsert lookupStore
  by_cases h : st.any (fun p => p.1 == k) = true
  · rw [if_pos h]
    induction st with
    | nil => simp at h
    | cons p rest ih =>
      rw [List.map_cons]
      by_cases hp : (p.1 == k) = true
      · rw [if_pos hp]
        simp [List.find?_cons]
      · have hp' : (p.1 == k) = false := by simpa using hp
        rw [if_neg hp]
        simp only [List.find?_cons, hp']
        have h' : (rest.any fun q => q.1 == k) = true := by
          rcases List.any_eq_true.mp h with ⟨q, hq, hqk⟩
          rcases List.mem_cons.mp hq with rfl | hq'
          · exact absurd hqk hp
          · exact List.any_eq_true.mpr ⟨q, hq', hqk⟩
        exact ih h'
  · rw [if_neg h]
    have hnone : st.find? (fun p => p.1 == k) = none := by
      rw [List.find?_eq_none]
      intro q hq hqk
      exact h (List.any_eq_true.mpr ⟨q, hq, hqk⟩)
    simp [List.find?_append, hnone, List.find?_cons]

theorem storeKeys_upsert (st : Store) (k : String) (v : Lic) :
    storeKeys (upsert st k v) =
      if st.any (fun p => p.1 == k) then storeKeys st
      else storeKeys st ++ [k] := by
  unfold upsert storeKeys
  split
  · rw [List.map_map]
    apply List.map_congr_left
    intro p _
    by_cases hp : (p.1 == k) = true
    · simp [Function.comp, hp, (beq_iff_eq).mp hp]
    · simp [Function.comp, hp]
  · simp

theorem storeKeys_nodup_upsert (st : Store) (k : String) (v : Lic)
    (h : (storeKeys st).Nodup) : (storeKeys (upsert st k v)).Nodup := by
  rw [storeKeys_upsert]
  split
  · exact h
  · rename_i hany
    have hk : k ∉ storeKeys st := by
      intro hmem
      rcases List.mem_map.mp hmem with ⟨q, hq, hqk⟩
      exact hany (List.any_eq_true.mpr ⟨q, hq, by rw [beq_iff_eq]; exact hqk⟩)
    simp [List.nodup_append, h, hk]

theorem storeKeys_nodup_foldl (recs : List Lic) :
    ∀ st : Store, (storeKeys st).Nodup →
      (storeKeys (recs.foldl processRecord st)).Nodup := by
  induction recs with
  | nil => intro st h; simpa using h
  | cons r rest ih =>
    intro st h
    rw [List.foldl_cons]
    apply ih
    unfold processRecord
    split
    · exact h
    · exact storeKeys_nodup_upsert _ _ _ h

theorem mem_storeValues_upsert {l : Lic} {st : Store} {k : String} {v : Lic}
    (h : l ∈ storeValues (upsert st k v)) : l = v ∨ l ∈ storeValues st := by
  simp only [upsert, storeValues] at h ⊢
  split at h
  · rw [List.map_map] at h
    rcases List.mem_map.mp h with ⟨p, hp, hl⟩
    by_cases hpk : (p.1 == k) = true
    · left
      simp [Function.comp, hpk] at hl
      exact hl.symm
    · right
      simp [Function.comp, hpk] at hl
      exact List.mem_map.mpr ⟨p, hp, hl⟩
  · rw [List.map_append] at h
    rcases List.mem_append.mp h with h' | h'
    · right; exact h'
    · left; simpa using h'

theorem mem_storeValues_processRecord {l r : Lic} {st : Store}
    (h : l ∈ storeValues (processRecord st r)) :
    (l = r ∧ l.id ≠ "") ∨ l ∈ storeValues st := by
  unfold processRecord at h
  split at h
  · right; exact h
  · rename_i hid
    rcases mem_storeValues_upsert h with h' | h'
    · left
      refine ⟨h', ?_⟩
      rw [h']
      exact hid
    · right; exact h'

theorem mem_storeValues_foldl_processEntry {l : Lic} :
    ∀ (es : List Entry) (st : Store),
      l ∈ storeValues (es.foldl processEntry st) →
      (∃ e : Entry, l = parse_entry e ∧ l.id ≠ "") ∨ l ∈ storeValues st := by
  intro es
  induction es with
  | nil => intro st h; right; simpa using h
  | cons e rest ih =>
    intro st h
    rw [List.foldl_cons] at h
    rcases ih _ h with h' | h'
    · left; exact h'
    · rcases mem_storeValues_processRecord h' with ⟨he, hid⟩ | h''
      · left; exact ⟨e, he, hid⟩
      · right; exact h''

theorem mem_storeValues_processZipPeriod {l : Lic}
    {probe : String → Option Nat} {fetch : String → Option Zip}
    {st : Store} {ym : String}
    (h : l ∈ storeValues (processZipPeriod probe fetch st ym)) :
    (∃ e : Entry, l = parse_entry e ∧ l.id ≠ "") ∨ l ∈ storeValues st := by
  unfold processZipPeriod at h
  split at h
  · right; exact h
  · split at h
    · right; exact h
    · exact mem_storeValues_foldl_processEntry _ _ h

theorem mem_storeValues_buildStore {l : Lic} {months : List String}
    {probe : String → Option Nat} {fetch : String → Option Zip}
    (h : l ∈ storeValues (buildStore months probe fetch)) :
    ∃ e : Entry, l = parse_entry e ∧ l.id ≠ "" := by
  unfold buildStore at h
  have key : ∀ (ms : List String) (st : Store),
      l ∈ storeValues (ms.foldl (processZipPeriod probe fetch) st) →
      (∃ e : Entry, l = parse_entry e ∧ l.id ≠ "") ∨ l ∈ storeValues st := by
    intro ms
    induction ms with
    | nil => intro st h'; right; simpa using h'
    | cons m rest ih =>
      intro st h'
      rw [List.foldl_cons] at h'
      rcases ih _ h' with h'' | h''
      · left; exact h''
      · exact mem_storeValues_processZipPeriod h''
  rcases key months [] h with h' | h'
  · exact h'
  · simp [storeValues] at h'

/-- Claim C1: processing parsed records in period order, a later record
with the same non-empty id fully supersedes an earlier one — looking up
that id after processing both yields exactly the later record, wholesale
— and the Merge Store never holds two entries under one id. -/
theorem C1_dedup_last_wins :
    (∀ (pre mid : List Lic) (r1 r2 : Lic), r1.id = r2.id → r2.id ≠ "" →
      lookupStore (processAll (pre ++ r1 :: mid ++ [r2])) r2.id = some r2) ∧
    (∀ recs : List Lic, (storeKeys (processAll recs)).Nodup) := by
  constructor
  · intro pre mid r1 r2 _ h2
    have hsplit : pre ++ r1 :: mid ++ [r2] = (pre ++ r1 :: mid) ++ [r2] := by
      simp
    rw [hsplit]
    unfold processAll
    rw [List.foldl_append]
    simp only [List.foldl_cons, List.foldl_nil]
    unfold processRecord
    rw [if_neg h2]
    exact lookup_upsert_self _ _ _
  · intro recs
    exact storeKeys_nodup_foldl recs [] (by simp [storeKeys])

theorem C1_dedup_last_wins_witness :
    lookupStore (processAll ([] ++ licA :: [] ++ [licB])) licB.id = some licB :=
  C1_dedup_last_wins.1 [] [] licA licB rfl (by decide)

/-- Claim C2: the classifier is inactive exactly on an annulled/suspended
status or a deadline whose first three integer groups, read day-month-
year, form a valid calendar date strictly before the current date; every
other case (missing deadline, fewer than three groups, invalid date,
deadline not yet passed) is active. -/
theorem C2_active_classifier (lic : Lic) (today : Date) :
    is_active lic today =
      (!excludedStatusSpec lic && !deadlinePassedSpec lic.fechaLimite today) := by
  unfold is_active excludedStatusSpec deadlinePassedSpec
  by_cases hex : (strContains (strLower lic.estado) "anulada" ||
      strContains (strLower lic.estado) "suspend") = true
  · simp [hex]
  · have hex' : (strContains (strLower lic.estado) "anulada" ||
        strContains (strLower lic.estado) "suspend") = false := by
      simpa using hex
    rw [if_neg hex, hex']
    by_cases hff : lic.fechaLimite = ""
    · rw [hff]
      have hempty : ("" : String).toList = [] := rfl
      simp [hempty, digitGroups, digitGroupsAux]
    · rw [if_pos hff]
      cases hparts : (digitGroups lic.fechaLimite.toList).map digitsToNat with
      | nil => simp
      | cons d rest =>
        cases rest with
        | nil => simp
        | cons m rest2 =>
          cases rest2 with
          | nil => simp
          | cons y rest3 =>
            by_cases hc : (validDate y m d && dateLt ⟨y, m, d⟩ today) = true
            · simp [hc]
            · have hc' : (validDate y m d && dateLt ⟨y, m, d⟩ today) = false := by
                simpa using hc
              simp [hc']

/-- Claim C3: the parsed id is the first non-empty value of the chain
identifier-label value, entry link, entry title; and an entry whose
chain is entirely empty is dropped before the Merge Store, so its record
appears in neither the full-history nor the active output. -/
theorem C3_identifier_resolution (e : Entry) :
    (parse_entry e).id = (((idChain e).find? (fun s => s != "")).getD "") ∧
    ((idChain e).all (fun s => s == "") = true →
      ∀ (months : List String) (probe : String → Option Nat)
        (fetch : String → Option Zip) (today : Date) (activeOnly : Bool),
        parse_entry e ∉ (runSync months probe fetch today activeOnly).1 ∧
        ∀ l, (runSync months probe fetch today activeOnly).2 = some l →
          parse_entry e ∉ l) := by
  have hchain :
      (parse_entry e).id = (((idChain e).find? (fun s => s != "")).getD "") := by
    unfold parse_entry idChain linkText
    cases hl : e.link with
    | none =>
      by_cases ha : rexStr identAlts clsNotNlLt (extract_text e.summary) = ""
      · by_cases ht : extract_text e.title = ""
        · simp [List.find?_cons, ha, ht]
        · simp [List.find?_cons, ha, ht]
      · simp [List.find?_cons, ha]
    | some h' =>
      cases h' with
      | none =>
        by_cases ha : rexStr identAlts clsNotNlLt (extract_text e.summary) = ""
        · by_cases ht : extract_text e.title = ""
          · simp [List.find?_cons, ha, ht]
          · simp [List.find?_cons, ha, ht]
        · simp [List.find?_cons, ha]
      | some s =>
        by_cases ha : rexStr identAlts clsNotNlLt (extract_text e.summary) = ""
        · by_cases hs : s = ""
          · by_cases ht : extract_text e.title = ""
            · simp [List.find?_cons, ha, hs, ht]
            · simp [List.find?_cons, ha, hs, ht]
          · simp [List.find?_cons, ha, hs]
        · simp [List.find?_cons, ha]
  refine ⟨hchain, ?_⟩
  intro hall months probe fetch today activeOnly
  have hid : (parse_entry e).id = "" := by
    rw [hchain]
    have : (idChain e).find? (fun s => s != "") = none := by
      rw [List.find?_eq_none]
      intro s hs
      have := List.all_eq_true.mp hall s hs
      simp only [beq_iff_eq] at this
      simp [this]
    rw [this]
    rfl
  have hnotin : parse_entry e ∉ (runSync months probe fetch today activeOnly).1 := by
    intro hmem
    have hmem' : parse_entry e ∈ storeValues (buildStore months probe fetch) := by
      simpa [runSync] using hmem
    rcases mem_storeValues_buildStore hmem' with ⟨e', _, hid'⟩
    exact hid' hid
  refine ⟨hnotin, ?_⟩
  intro l hl hmem
  have : l = (storeValues (buildStore months probe fetch)).filter
      (fun r => is_active r today) := by
    unfold runSync at hl
    by_cases hao : activeOnly = true
    · rw [hao] at hl
      simpa using hl.symm
    · have : activeOnly = false := by simpa using hao
      rw [this] at hl
      simp at hl
  rw [this] at hmem
  exact hnotin (by simpa [runSync] using List.mem_of_mem_filter hmem)

theorem C3_identifier_resolution_witness :
    parse_entry entryEmpty ∉ (runSync ["202001"] probeW fetchW todayW true).1 :=
  (((C3_identifier_resolution entryEmpty).2 (by decide)) ["202001"] probeW
    fetchW todayW true).1

theorem findZipAux_eq_find? (probe : String → Option Nat) (ym : String) :
    ∀ pats : List String,
      findZipAux probe ym pats =
        (pats.map (fun p => zipUrl p ym)).find?
          (fun u => probe u == some 200) := by
  intro pats
  induction pats with
  | nil => rfl
  | cons p rest ih =>
    rw [List.map_cons]
    unfold findZipAux
    cases hp : probe (zipUrl p ym) with
    | none => simp [List.find?_cons, hp, ih]
    | some n =>
      by_cases hn : n = 200
      · subst hn
        simp [List.find?_cons, hp]
      · simp [List.find?_cons, hp, hn, ih]

/-- Claim C7: the Archive Locator probes the fixed pattern list in its
fixed priority order and returns the URL of the first pattern whose
probe returns success (status 200), never a later one; when every
pattern fails by transport error or non-success status it returns
`None`. -/
theorem C7_locator_first_pattern_wins (probe : String → Option Nat)
    (ym : String) :
    find_existing_zip probe ym =
      (ZIP_PATTERNS.map (fun p => zipUrl p ym)).find?
        (fun u => probe u == some 200) ∧
    ((∀ u ∈ ZIP_PATTERNS.map (fun p => zipUrl p ym), probe u ≠ some 200) →
      find_existing_zip probe ym = none) := by
  have h := findZipAux_eq_find? probe ym ZIP_PATTERNS
  refine ⟨h, ?_⟩
  intro hall
  unfold find_existing_zip
  rw [h, List.find?_eq_none]
  intro u hu
  simp [hall u hu]

theorem C7_locator_first_pattern_wins_witness :
    find_existing_zip (fun _ => none) "202001" = none :=
  (C7_locator_first_pattern_wins (fun _ => none) "202001").2
    (fun u _ => by simp)

/-- Claim C5 (as stated) is false at this input: with the active-subset
output enabled, a failure of the full-history write propagates at once
and the active-subset write is never attempted. -/
theorem C5_output_independence_counterexample :
    Artifact.active ∉ (outputPhase false true true).1 ∧
    (outputPhase false true true).2 = true := by decide

/-- Claim C5 amended: the full-history write is always attempted and
completes before the active-subset write begins, so a failure of the
active-subset write cannot suppress it; but a failure of the
full-history write propagates immediately and the active-subset write is
not attempted; an output failure of either write propagates to the
caller as fatal. -/
theorem C5_output_independence_amended (ndOk acOk activeOnly : Bool) :
    Artifact.ndjson ∈ (outputPhase ndOk acOk activeOnly).1 ∧
    (activeOnly = true → ndOk = true →
      Artifact.active ∈ (outputPhase ndOk acOk activeOnly).1) ∧
    (ndOk = false → Artifact.active ∉ (outputPhase ndOk acOk activeOnly).1) ∧
    ((outputPhase ndOk acOk activeOnly).2 = true ↔
      (ndOk = false ∨ (activeOnly = true ∧ acOk = false))) := by
  cases ndOk <;> cases acOk <;> cases activeOnly <;> decide

theorem C5_output_independence_amended_witness :
    Artifact.active ∈ (outputPhase true true true).1 :=
  (C5_output_independence_amended true true true).2.1 rfl rfl

/-- Claim C6 (as stated) is false at this input: the next-page link
names a member that exists but is unparsable; the first document's
entries are yielded, but the extractor then raises (the `except
KeyError` clause does not catch `ET.ParseError`), aborting that
archive's processing instead of swallowing the failure. -/
theorem C6_pagination_counterexample :
    iter_atom_entries_from_zip zipBadPage = ([entryW], true) := by decide

/-- Claim C6 amended: a next-page link naming a member missing from the
archive container is swallowed silently (`KeyError` is caught) with the
first document's entries intact; a linked member that exists but is
unparsable still yields the first document's entries but raises an
error that aborts that archive's remaining processing (caught by the
per-period handler, so the run continues). -/
theorem C6_pagination_amended (z : Zip) (name : String) (feed : Feed)
    (href : String) (hfind : findAtom z = some (name, some feed))
    (hnext : feed.next = some href) (hne : href ≠ "") :
    (zOpen z href = none →
      iter_atom_entries_from_zip z = (feed.entries, false)) ∧
    (zOpen z href = some none →
      iter_atom_entries_from_zip z = (feed.entries, true)) := by
  constructor <;> intro hopen <;>
    simp [iter_atom_entries_from_zip, hfind, hnext, hne, hopen]

theorem C6_pagination_amended_witness :
    iter_atom_entries_from_zip zipNoPage =
      (({ entries := [entryW], next := some "page2.xml" } : Feed).entries,
        false) :=
  (C6_pagination_amended zipNoPage "licitaciones.atom"
    { entries := [entryW], next := some "page2.xml" } "page2.xml"
    (by decide) rfl (by decide)).1 (by decide)

/-- Claim C8: the pipeline is deterministic in its inputs — two runs
over identical upstream data (probe and fetch oracles agreeing
pointwise), the same month sequence, configuration and current date
produce identical full-history and active-subset record sequences; the
Merge Store starts empty inside `runSync`, and serialization is a pure
function of these sequences. -/
theorem C8_run_determinism (months : List String)
    (probe1 probe2 : String → Option Nat)
    (fetch1 fetch2 : String → Option Zip) (today : Date) (activeOnly : Bool)
    (hp : ∀ u, probe1 u = probe2 u) (hf : ∀ u, fetch1 u = fetch2 u) :
    runSync months probe1 fetch1 today activeOnly =
      runSync months probe2 fetch2 today activeOnly := by
  have hp' : probe1 = probe2 := funext hp
  have hf' : fetch1 = fetch2 := funext hf
  rw [hp', hf']

theorem C8_run_determinism_witness :
    runSync ["202001"] probeW fetchW todayW true =
      runSync ["202001"] probeW fetchW todayW true :=
  C8_run_determinism ["202001"] probeW probeW fetchW fetchW todayW true
    (fun _ => rfl) (fun _ => rfl)

/-- Claim C10: a subscriber with a positive minimum amount never matches
a tender whose amount is absent — `lic.get("importe") or 0` compares the
absent amount as zero, which is below the positive minimum, regardless
of the other filters. -/
theorem C10_min_amount_excludes_absent (sub : Subscriber)
    (tenders : List Lic) (lic : Lic) (m : ℚ) (hmin : sub.importeMin = some m)
    (hpos : 0 < m) (habs : lic.importe = none) :
    lic ∉ filter_tenders sub tenders := by
  intro hmem
  have hmatch : matchesSub sub lic = true := (List.mem_filter.mp hmem).2
  have hne : m ≠ 0 := ne_of_gt hpos
  simp [matchesSub, hmin, habs, hne, hpos] at hmatch

theorem C10_min_amount_excludes_absent_witness :
    licNoImp ∉ filter_tenders subW [licNoImp] :=
  C10_min_amount_excludes_absent subW [licNoImp] licNoImp 5 rfl
    (by norm_num) rfl

theorem takeWhile_isDigit_eq_nil {s : List Char}
    (h : ∀ c ∈ s, c.isDigit = false) : s.takeWhile Char.isDigit = [] := by
  cases s with
  | nil => rfl
  | cons c t =>
    rw [List.takeWhile_cons, h c (List.mem_cons_self c t)]
    simp

theorem parseUnsigned_no_digit (s : List Char)
    (h : ∀ c ∈ s, c.isDigit = false) : parseUnsigned s = none := by
  cases s with
  | nil => rfl
  | cons c t =>
    have hc : c.isDigit = false := h c (List.mem_cons_self c t)
    have ht : ∀ d ∈ t, d.isDigit = false :=
      fun d hd => h d (List.mem_cons_of_mem c hd)
    by_cases hdot : c = '.'
    · subst hdot
      have htk : t.takeWhile Char.isDigit = [] := takeWhile_isDigit_eq_nil ht
      simp [parseUnsigned, List.takeWhile_cons, List.dropWhile_cons, hc, htk]
    · simp [parseUnsigned, List.takeWhile_cons, List.dropWhile_cons, hc, hdot]

theorem parseRep_no_digit (s : List Char)
    (h : ∀ c ∈ s, c.isDigit = false) : parseRep s = none := by
  cases s with
  | nil => rfl
  | cons c t =>
    have ht : ∀ d ∈ t, d.isDigit = false :=
      fun d hd => h d (List.mem_cons_of_mem c hd)
    by_cases hplus : c = '+'
    · subst hplus
      simp [parseRep, parseUnsigned_no_digit t ht]
    · by_cases hminus : c = '-'
      · subst hminus
        simp [parseRep, parseUnsigned_no_digit t ht]
      · simp [parseRep, hplus, hminus, parseUnsigned_no_digit _ h]

/-- Claim C4: amount normalization strips periods, converts the decimal
comma to a decimal point and parses the result; `"1.234,56"` yields
`1234.56`, while `"abc"`, the empty text, and generally any text with no
digit yield an absent amount rather than zero. -/
theorem C4_amount_normalization :
    to_float "1.234,56" = some (123456 / 100 : ℚ) ∧
    to_float "abc" = none ∧
    to_float "" = none ∧
    ∀ x : String, (∀ c ∈ x.toList, c.isDigit = false) → to_float x = none := by
  have hgen : ∀ x : String, (∀ c ∈ x.toList, c.isDigit = false) →
      to_float x = none := by
    intro x hx
    unfold to_float
    by_cases hxe : x = ""
    · rw [if_pos hxe]
    · rw [if_neg hxe]
      have hcl : ∀ c ∈ (x.toList.filter (fun c => c ≠ '.')).map
          (fun c => if c = ',' then '.' else c), c.isDigit = false := by
        intro c hc
        rcases List.mem_map.mp hc with ⟨c0, hc0, rfl⟩
        have h0 : c0.isDigit = false := hx c0 (List.mem_of_mem_filter hc0)
        by_cases hcomma : c0 = ','
        · rw [if_pos hcomma]
          decide
        · rw [if_neg hcomma]
          exact h0
      rw [parseRep_no_digit _ hcl]
      rfl
  refine ⟨?_, hgen "abc" (by decide), rfl, hgen⟩
  have hparse : parseRep (("1.234,56".toList.filter (fun c => c ≠ '.')).map
      (fun c => if c = ',' then '.' else c)) = some ((123456 : Int), 2) := by
    decide
  unfold to_float
  rw [if_neg (by decide : ¬("1.234,56" = "")), hparse]
  have hval : repVal ((123456 : Int), 2) = (123456 / 100 : ℚ) := by
    unfold repVal
    norm_num
  rw [Option.map_some', hval]

theorem C4_amount_normalization_witness : to_float "xy" = none :=
  C4_amount_normalization.2.2.2 "xy" (by decide)

theorem mem_pyStrip {c : Char} {l : List Char} (h : c ∈ pyStrip l) : c ∈ l := by
  unfold pyStrip at h
  have h1 := List.mem_reverse.mp h
  have h2 := (List.dropWhile_sublist pySpace).mem h1
  have h3 := List.mem_reverse.mp h2
  exact (List.dropWhile_sublist pySpace).mem h3

theorem tryGroup_chars {alts : List (List Piece)} {gp : Char → Bool}
    {s g : List Char} (h : tryGroup alts gp s = some g) :
    ∀ c ∈ g, gp c = true := by
  unfold tryGroup at h
  rcases List.exists_of_findSome?_eq_some h with ⟨r, _, hfr⟩
  dsimp only at hfr
  by_cases hemp : (r.takeWhile gp).isEmpty
  · rw [if_pos hemp] at hfr
    cases hfr
  · rw [if_neg hemp] at hfr
    have hg : g = r.takeWhile gp := (Option.some_inj.mp hfr).symm
    intro c hc
    rw [hg] at hc
    exact List.mem_takeWhile_imp hc

theorem reSearch_chars {alts : List (List Piece)} {gp : Char → Bool} :
    ∀ s g, reSearch alts gp s = some g → ∀ c ∈ g, gp c = true := by
  intro s
  induction s with
  | nil =>
    intro g h
    exact tryGroup_chars (by simpa [reSearch] using h)
  | cons a t ih =>
    intro g h
    unfold reSearch at h
    cases htry : tryGroup alts gp (a :: t) with
    | some g' =>
      rw [htry] at h
      have : g' = g := Option.some_inj.mp h
      exact this ▸ tryGroup_chars htry
    | none =>
      rw [htry] at h
      exact ih g h

theorem rexStr_chars {alts : List (List Piece)} {gp : Char → Bool}
    {s r : String} (h : rexStr alts gp s = r) : ∀ c ∈ r.toList, gp c = true := by
  unfold rexStr at h
  cases hsearch : reSearch alts gp s.toList with
  | none =>
    rw [hsearch] at h
    intro c hc
    rw [← h] at hc
    cases hc
  | some g =>
    rw [hsearch] at h
    intro c hc
    rw [← h] at hc
    have hc' : c ∈ pyStrip g := hc
    exact reSearch_chars s.toList g hsearch c (mem_pyStrip hc')

theorem parseRep_nonneg {s : List Char} {n : Int} {k : Nat}
    (hminus : ∀ c ∈ s, c ≠ '-') (h : parseRep s = some (n, k)) : 0 ≤ n := by
  unfold parseRep at h
  split at h
  · rcases Option.map_eq_some'.mp h with ⟨p, _, hval⟩
    have hp1 : (p.1 : Int) = n := congrArg Prod.fst hval
    rw [← hp1]
    exact Int.natCast_nonneg p.1
  · rename_i t
    exact absurd rfl (hminus '-' (List.mem_cons_self '-' t))
  · rcases Option.map_eq_some'.mp h with ⟨p, _, hval⟩
    have hp1 : (p.1 : Int) = n := congrArg Prod.fst hval
    rw [← hp1]
    exact Int.natCast_nonneg p.1

theorem to_float_nonneg {x : String} {q : ℚ}
    (hchars : ∀ c ∈ x.toList, clsAmount c = true) (h : to_float x = some q) :
    0 ≤ q := by
  unfold to_float at h
  by_cases hxe : x = ""
  · rw [if_pos hxe] at h
    cases h
  · rw [if_neg hxe] at h
    have hcl : ∀ c ∈ (x.toList.filter (fun c => c ≠ '.')).map
        (fun c => if c = ',' then '.' else c), c ≠ '-' := by
      intro c hc
      rcases List.mem_map.mp hc with ⟨c0, hc0, rfl⟩
      have h0 : clsAmount c0 = true := hchars c0 (List.mem_of_mem_filter hc0)
      by_cases hcomma : c0 = ','
      · rw [if_pos hcomma]
        decide
      · rw [if_neg hcomma]
        intro hbad
        rw [hbad] at h0
        simp [clsAmount] at h0
    rcases Option.map_eq_some'.mp h with ⟨⟨n, k⟩, hrep, hval⟩
    have hn : 0 ≤ n := parseRep_nonneg hcl hrep
    rw [← hval]
    unfold repVal
    apply div_nonneg
    · exact_mod_cast hn
    · positivity

/-- Claim C9: every amount the pipeline stores is non-negative — the
amount extraction pattern admits only digits, periods and commas, and
normalizing such text can never produce a negative number, so every
record of a run's output with a present amount satisfies the
invariant. -/
theorem C9_amount_nonneg (months : List String) (probe : String → Option Nat)
    (fetch : String → Option Zip) (today : Date) (activeOnly : Bool)
    (lic : Lic) (q : ℚ)
    (hmem : lic ∈ (runSync months probe fetch today activeOnly).1)
    (himp : lic.importe = some q) : 0 ≤ q := by
  have hmem' : lic ∈ storeValues (buildStore months probe fetch) := by
    simpa [runSync] using hmem
  rcases mem_storeValues_buildStore hmem' with ⟨e, rfl, _⟩
  have hchars : ∀ c ∈ (rexStr importeAlts clsAmount
      (extract_text e.summary)).toList, clsAmount c = true := rexStr_chars rfl
  have hdef : (parse_entry e).importe =
      to_float (rexStr importeAlts clsAmount (extract_text e.summary)) := rfl
  exact to_float_nonneg hchars (by rw [← hdef]; exact himp)

theorem C9_amount_nonneg_witness : (0 : ℚ) ≤ repVal (5, 0) :=
  C9_amount_nonneg ["202001"] probeW fetchW todayW true (parse_entry entryW)
    (repVal (5, 0)) (List.mem_singleton.mpr rfl) rfl
